import Mathlib

/-!
Shallow embedding of the resume extraction engine of
`src/backend/services/nlpService.js` (class `NLPService`), together with
proofs about the behaviour of its fallback extraction pipeline, its skill
taxonomy matcher, its LLM response protocol layer and its candidate brief
generator.

JavaScript string primitives (`split`, `trim`, `toLowerCase`, `includes`,
`indexOf`, `lastIndexOf`, `substring`, `replace`, `match` with the three
concrete regular expressions of the source) are embedded as executable
functions over `List Char` / `String`.  The two network calls (`axios.post`)
and the platform JSON decoder (`JSON.parse`) are external collaborators: they
are modelled by explicit outcome parameters, so that every code path of the
source (success, request failure, decode failure) is a constructor case.
-/

namespace NlpService

/-- Whitespace predicate used to embed JavaScript `trim` and `\s`. -/
def isJsSpace (c : Char) : Bool :=
  c = ' ' || c = '\t' || c = '\n' || c = '\r' || c = '\x0b' || c = '\x0c'

/-- Embedding of JavaScript `String.prototype.trim` on character lists. -/
def trimChars (s : List Char) : List Char :=
  ((s.dropWhile isJsSpace).reverse.dropWhile isJsSpace).reverse

/-- Embedding of JavaScript `String.prototype.trim`. -/
def trimStr (s : String) : String :=
  (trimChars s.data).asString

/-- Embedding of JavaScript `String.prototype.toLowerCase` (ASCII range,
which is all the source's vocabulary uses). -/
def lowerStr (s : String) : String :=
  (s.data.map Char.toLower).asString

/-- Embedding of JavaScript `String.prototype.split` with a one-character
separator: `"a|b".split("|") = ["a","b"]`, `"".split("|") = [""]`. -/
def splitOnChar (sep : Char) : List Char → List (List Char)
  | [] => [[]]
  | c :: cs =>
    if c = sep then [] :: splitOnChar sep cs
    else
      match splitOnChar sep cs with
      | [] => [[c]]
      | g :: gs => (c :: g) :: gs

/-- Splitting a string into its newline-separated lines, as the source's
`text.split(String.fromCharCode 10)` does. -/
def splitLines (s : String) : List String :=
  (splitOnChar '\n' s.data).map List.asString

/-- Embedding of JavaScript `String.prototype.includes` (substring test). -/
def containsSub (hay needle : List Char) : Bool :=
  match hay with
  | [] => needle.isEmpty
  | _ :: t => needle.isPrefixOf hay || containsSub t needle

/-- String-level `includes`. -/
def containsStr (hay needle : String) : Bool :=
  containsSub hay.data needle.data

/-- Case-insensitive containment, embedding the source's ubiquitous
`hay.toLowerCase().includes(needle.toLowerCase())`. -/
def containsCI (hay needle : String) : Bool :=
  containsStr (lowerStr hay) (lowerStr needle)

/-- Embedding of the JavaScript string-valued `a || d` idiom: an absent
(`undefined`) or empty string is replaced by the default. -/
def jsOrStr (v : Option String) (d : String) : String :=
  match v with
  | some s => if s = "" then d else s
  | none => d

/-- First index at which `needle` occurs as a prefix of a suffix of `hay`
(the index JavaScript `indexOf`/`search` would report). -/
def findSubIdx : List Char → List Char → Option Nat
  | hay, needle =>
    if needle.isPrefixOf hay then some 0
    else
      match hay with
      | [] => none
      | _ :: t => (findSubIdx t needle).map (fun i => i + 1)

/-- Embedding of `s.replace(re, "")` for a case-insensitive literal pattern:
removes the first case-insensitive occurrence of `needle` from `s`. -/
def replaceFirstCI (s needle : String) : String :=
  match findSubIdx (lowerStr s).data (lowerStr needle).data with
  | some i => ((s.data.take i) ++ (s.data.drop (i + needle.length))).asString
  | none => s

/-! ### A small backtracking matcher for the three regular expressions of
the source.  Each regex is a sequence of character-class atoms: a single
class, an optional class (`?`), or a greedy at-least-`n` repetition of a
class (`+` / the counted repetition).  Matching follows JavaScript
semantics: leftmost start position wins, and at a given position greedy
alternatives are tried longest-first with backtracking. -/

/-- Atom of the regex sublanguage used by the source's three patterns. -/
inductive RE where
  | cls : (Char → Bool) → RE
  | opt : (Char → Bool) → RE
  | rep : (Char → Bool) → Nat → RE

/-- Length of the maximal run of characters satisfying `p` at the head. -/
def npRun (p : Char → Bool) : List Char → Nat
  | [] => 0
  | c :: cs => if p c then npRun p cs + 1 else 0

/-- Candidate consumption lengths of one atom at the head of `s`, in the
greedy (longest-first) order JavaScript tries them. -/
def alts : RE → List Char → List Nat
  | .cls p, c :: _ => if p c then [1] else []
  | .cls _, [] => []
  | .opt p, c :: _ => if p c then [1, 0] else [0]
  | .opt _, [] => [0]
  | .rep p n, s =>
    let m := npRun p s
    if n ≤ m then (List.range (m + 1 - n)).map (fun j => m - j) else []

/-- Backtracking match of a regex (sequence of atoms) against a prefix of
`s`; returns the number of characters the (greedy-first) match consumes. -/
def matchSeq : List RE → List Char → Option Nat
  | [], _ => some 0
  | r :: rs, s =>
    (alts r s).findSome? (fun k => (matchSeq rs (s.drop k)).map (fun n => k + n))

/-- Embedding of JavaScript `text.match(re)` (no global flag): scan start
positions left to right and return the first matched substring. -/
def jsSearch (rs : List RE) : List Char → Option (List Char)
  | [] =>
    match matchSeq rs [] with
    | some n => some (List.take n [])
    | none => none
  | c :: t =>
    match matchSeq rs (c :: t) with
    | some n => some ((c :: t).take n)
    | none => jsSearch rs t

/-- Digit class, `\d`. -/
def digitChar (c : Char) : Bool := '0' ≤ c && c ≤ '9'

/-- Word class, `\w`. -/
def wordChar (c : Char) : Bool :=
  ('a' ≤ c && c ≤ 'z') || ('A' ≤ c && c ≤ 'Z') || digitChar c || c = '_'

/-- Class `[1-9]` of the phone pattern. -/
def digit19 (c : Char) : Bool := '1' ≤ c && c ≤ '9'

/-- Class `[\s\-()]` of the phone pattern. -/
def phoneSep (c : Char) : Bool :=
  isJsSpace c || c = '-' || c = '(' || c = ')'

/-- Class `[\d\s\-()]` whose 10-fold repetition ends the phone pattern. -/
def phoneTail (c : Char) : Bool := digitChar c || phoneSep c

/-- Class `[\w.-]` of the email pattern. -/
def emailLocal (c : Char) : Bool := wordChar c || c = '.' || c = '-'

/-- Case-insensitive literal character atom, for the `/i`-flagged pattern. -/
def litCI (ch : Char) : RE := RE.cls (fun c => c.toLower = ch)

/-- Embedding of the source's email regex: word/dot/dash local part, `@`,
word/dot/dash domain, a dot, then word characters. -/
def emailRE : List RE :=
  [RE.rep emailLocal 1, RE.cls (fun c => c = '@'), RE.rep emailLocal 1,
   RE.cls (fun c => c = '.'), RE.rep wordChar 1]

/-- Embedding of the source's phone regex: optional `+`, optional `[1-9]`,
optional separator, then at least ten characters of `[\d\s\-()]`. -/
def phoneRE : List RE :=
  [RE.opt (fun c => c = '+'), RE.opt digit19, RE.opt phoneSep, RE.rep phoneTail 10]

/-- Embedding of the source's case-insensitive LinkedIn regex: the literal
`linkedin.com/in/` followed by word/dash characters. -/
def linkedinRE : List RE :=
  ("linkedin.com/in/".data.map litCI) ++ [RE.rep (fun c => wordChar c || c = '-') 1]

/-! ### Data model: the CandidateRecord produced by extraction. -/

/-- Entry of the `experience` sequence. -/
structure ExperienceEntry where
  title : String
  company : String
  duration : String
  description : String
deriving DecidableEq, Repr

/-- Entry of the `education` sequence. -/
structure EducationEntry where
  degree : String
  school : String
  year : String
  cgpa : String
  stream : String
deriving DecidableEq, Repr

/-- Entry of the `projects` sequence. -/
structure ProjectEntry where
  name : String
  description : String
  technologies : List String
deriving DecidableEq, Repr

/-- The structured record returned by both extraction paths. -/
structure CandidateRecord where
  name : String
  email : String
  phone : String
  linkedin : String
  skills : List String
  experience : List ExperienceEntry
  education : List EducationEntry
  certifications : List String
  projects : List ProjectEntry
deriving DecidableEq, Repr

/-! ### Skill taxonomy matcher (`extractSkillsFromText`). -/

/-- The static skill taxonomy `technicalSkills` of the source, in source
order. -/
def technicalSkills : List String :=
  ["JavaScript", "Python", "Java", "C", "C++", "SQL", "R", "MATLAB",
   "React", "Node.js", "Express.js", "MongoDB", "HTML", "CSS", "TypeScript",
   "Redux", "REST API", "GraphQL", "Git", "GitHub", "GitLab", "Docker",
   "Kubernetes", "AWS", "Azure", "Google Cloud", "Firebase", "OpenCV",
   "TensorFlow", "PyTorch", "Machine Learning", "Deep Learning",
   "Natural Language Processing", "Computer Vision", "Data Analysis",
   "Data Visualization", "Pandas", "NumPy", "Scikit-learn", "Tableau",
   "Power BI", "Agile", "Scrum", "Kanban", "CI/CD", "Linux",
   "Shell Scripting", "Cybersecurity", "Networking", "Cloud Computing",
   "System Design", "OOP", "Functional Programming", "Data Structures",
   "Algorithms", "Database Management", "Software Testing", "Unit Testing",
   "Integration Testing", "UI/UX", "Figma", "Wireframing", "API Integration",
   "Microservices", "DevOps"]

/-- Embedding of `NLPService.extractSkillsFromText`: walk the taxonomy in
order, keep every skill whose lowercase form is contained in the lowercase
text, and fall back to the fixed default triple when nothing matched. -/
def extractSkillsFromText (text : String) : List String :=
  let lowerText := lowerStr text
  let foundSkills := technicalSkills.foldl
    (fun acc skill =>
      if containsSub lowerText.data (lowerStr skill).data then acc ++ [skill] else acc)
    []
  if foundSkills.length > 0 then foundSkills else ["JavaScript", "React", "Node.js"]

/-! ### Experience extractor (`extractExperienceFromText`). -/

/-- The placeholder entry synthesized when no line qualifies. -/
def placeholderExperience : ExperienceEntry :=
  { title := "Software Engineer", company := "Tech Company",
    duration := "2021 - Present",
    description := "Developed web applications using modern technologies" }

/-- Loop body of `extractExperienceFromText`: per line, trim, require the
pipe delimiter together with one of the year literals or `Present`, split on
the pipe, and keep lines with at least three trimmed segments. -/
def expLoop : List String → List ExperienceEntry
  | [] => []
  | ln :: rest =>
    let line := trimStr ln
    if containsStr line "|" &&
        (containsStr line "2019" || containsStr line "2020" ||
         containsStr line "2021" || containsStr line "2022" ||
         containsStr line "2023" || containsStr line "Present") then
      let parts := (splitOnChar '|' line.data).map (fun p => trimStr p.asString)
      if 3 ≤ parts.length then
        { title := parts.getD 0 "", company := parts.getD 1 "",
          duration := parts.getD 2 "",
          description := "Developed and maintained software applications" }
          :: expLoop rest
      else expLoop rest
    else expLoop rest

/-- Embedding of `NLPService.extractExperienceFromText`. -/
def extractExperienceFromText (text : String) : List ExperienceEntry :=
  let experience := expLoop (splitLines text)
  if experience.length = 0 then [placeholderExperience] else experience

/-! ### Education extractor (`extractEducationFromText`). -/

/-- The placeholder entry synthesized when no line matches. -/
def placeholderEducation : EducationEntry :=
  { degree := "Bachelor of Science", school := "University", year := "2020",
    cgpa := "3.5", stream := "Computer Science" }

/-- Loop body of `extractEducationFromText`: the source breaks out of its
loop at the first matching line, so at most one entry is produced. -/
def eduLoop : List String → List EducationEntry
  | [] => []
  | ln :: rest =>
    let line := trimStr ln
    if containsCI line "bachelor" || containsCI line "master" ||
        containsCI line "university" then
      let nextLine := match rest with
        | [] => ""
        | n :: _ => trimStr n
      [{ degree :=
           if containsStr line "Bachelor" then "Bachelor of Science"
           else if containsStr line "Master" then "Master of Science"
           else "Degree",
         school := if containsStr nextLine "University" then nextLine else "University",
         year := "2020", cgpa := "3.5", stream := "Computer Science" }]
    else eduLoop rest

/-- Embedding of `NLPService.extractEducationFromText`. -/
def extractEducationFromText (text : String) : List EducationEntry :=
  let education := eduLoop (splitLines text)
  if education.length = 0 then [placeholderEducation] else education

/-! ### Certification extractor (`extractCertificationsFromText`). -/

/-- The fixed keyword list of the source. -/
def certKeywords : List String :=
  ["AWS", "Google Cloud", "MongoDB", "Scrum", "Certified", "Certificate"]

/-- Embedding of `NLPService.extractCertificationsFromText`: each keyword
contained case-insensitively in the text contributes one certification
string; the spread of a `Set` keeps first occurrences, embedded by
`eraseDups`. -/
def extractCertificationsFromText (text : String) : List String :=
  (certKeywords.foldl
    (fun acc keyword =>
      if containsCI text keyword then acc ++ [keyword ++ " Certification"] else acc)
    []).eraseDups

/-! ### Project extractor (`extractProjectsFromText`). -/

/-- The placeholder entry synthesized when no line qualifies. -/
def placeholderProject : ProjectEntry :=
  { name := "Web Application", description := "Built a full-stack web application",
    technologies := ["React", "Node.js", "MongoDB"] }

/-- Loop body of `extractProjectsFromText`: a line containing `project` but
not `projects:` yields an entry built from that line and the next two lines. -/
def projLoop : List String → List ProjectEntry
  | [] => []
  | ln :: rest =>
    let line := trimStr ln
    if containsCI line "project" && !(containsCI line "projects:") then
      let nextLines := ((rest.take 2).map trimStr).filter (fun l => l.length > 0)
      { name := jsOrStr (some (trimStr (replaceFirstCI line "project"))) "Software Project",
        description := jsOrStr nextLines.head? "Developed a software application",
        technologies := (extractSkillsFromText (String.intercalate " " nextLines)).take 3 }
        :: projLoop rest
    else projLoop rest

/-- Embedding of `NLPService.extractProjectsFromText`. -/
def extractProjectsFromText (text : String) : List ProjectEntry :=
  let projects := projLoop (splitLines text)
  if projects.length = 0 then [placeholderProject] else projects

/-! ### Fallback extraction pipeline (`extractFallbackData`). -/

/-- Embedding of `NLPService.extractFallbackData`: name from the first
non-empty trimmed line, email/phone/linkedin from the first regex matches,
and the five extractors above for the remaining fields. -/
def extractFallbackData (resumeText : String) : CandidateRecord :=
  let lines := ((splitLines resumeText).map trimStr).filter (fun l => l.length > 0)
  { name := jsOrStr lines.head? "Unknown"
    email :=
      match jsSearch emailRE resumeText.data with
      | some cs => cs.asString
      | none => "unknown@email.com"
    phone :=
      match jsSearch phoneRE resumeText.data with
      | some cs => cs.asString
      | none => "Not provided"
    linkedin :=
      match jsSearch linkedinRE resumeText.data with
      | some cs => "https://" ++ cs.asString
      | none => ""
    skills := extractSkillsFromText resumeText
    experience := extractExperienceFromText resumeText
    education := extractEducationFromText resumeText
    certifications := extractCertificationsFromText resumeText
    projects := extractProjectsFromText resumeText }

/-! ### LLM response protocol layer (`extractResumeData`, `cleanJsonResponse`). -/

/-- Last index of `c` in `s` (JavaScript `lastIndexOf`). -/
def lastIdxOf (s : List Char) (c : Char) : Option Nat :=
  (s.reverse.findIdx? (fun d => d = c)).map (fun k => s.length - 1 - k)

/-- JavaScript `String.prototype.substring`: the arguments are swapped when
out of order and clamped to the string bounds. -/
def jsSubstring (s : List Char) (a b : Nat) : List Char :=
  (s.take (max a b)).drop (min a b)

/-- Embedding of `NLPService.cleanJsonResponse`: when both an opening and a
closing brace occur, slice from the first opening brace to the last closing
brace inclusive; otherwise return the input unchanged. -/
def cleanJsonResponse (response : String) : String :=
  match response.data.findIdx? (fun c => c = '\x7b'), lastIdxOf response.data '\x7d' with
  | some jsonStart, some jsonEnd =>
    (jsSubstring response.data jsonStart (jsonEnd + 1)).asString
  | _, _ => response

/-- JavaScript value of a field the source guards with `Array.isArray`:
either a decoded array, or anything else (absent, null, object, string...),
which `Array.isArray` rejects. -/
inductive JsSeq (α : Type) where
  | notArray : JsSeq α
  | arr : List α → JsSeq α
deriving DecidableEq, Repr

/-- Coercion performed by the source's `Array.isArray(x) ? x : []`. -/
def jsArr {α : Type} : JsSeq α → List α
  | .notArray => []
  | .arr xs => xs

/-- Shape of the object produced by `JSON.parse` on the sanitized model
content, as far as the source inspects it: four possibly-absent string
fields and five fields guarded by `Array.isArray`. -/
structure ParsedData where
  name : Option String
  email : Option String
  phone : Option String
  linkedin : Option String
  skills : JsSeq String
  experience : JsSeq ExperienceEntry
  education : JsSeq EducationEntry
  certifications : JsSeq String
  projects : JsSeq ProjectEntry
deriving DecidableEq, Repr

/-- The record the source builds from a successfully decoded object
(`extractResumeData`, the block commented `Ensure all required fields are
present`). -/
def buildPrimaryRecord (parsedData : ParsedData) : CandidateRecord :=
  { name := jsOrStr parsedData.name "Unknown"
    email := jsOrStr parsedData.email "unknown@email.com"
    phone := jsOrStr parsedData.phone "Not provided"
    linkedin := jsOrStr parsedData.linkedin ""
    skills := jsArr parsedData.skills
    experience := jsArr parsedData.experience
    education := jsArr parsedData.education
    certifications := jsArr parsedData.certifications
    projects := jsArr parsedData.projects }

/-- Outcome of the one `axios.post` of `extractResumeData`, as observed by
the code: either some exception was thrown before the model content was in
hand (network failure, non-success status, body decode failure, missing
content making `cleanJsonResponse` throw), or a content string was
obtained. -/
inductive LLMOutcome where
  | requestError
  | success (content : String)
deriving DecidableEq, Repr

/-- Embedding of `NLPService.extractResumeData`.  `decode` stands for the
platform primitive `JSON.parse`, returning `none` when parsing throws; the
`try`/`catch` of the source sends every failure to `extractFallbackData`. -/
def extractResumeData (decode : String → Option ParsedData)
    (outcome : LLMOutcome) (resumeText : String) : CandidateRecord :=
  match outcome with
  | .requestError => extractFallbackData resumeText
  | .success content =>
    match decode (cleanJsonResponse content) with
    | none => extractFallbackData resumeText
    | some parsedData => buildPrimaryRecord parsedData

/-! ### Candidate brief generator (`generateCandidateBrief`). -/

/-- The deterministic templated sentence the source builds in the `catch`
branch of `generateCandidateBrief`, from the record's own fields. -/
def fallbackBrief (resumeData : CandidateRecord) : String :=
  resumeData.name ++ " is a qualified " ++
    jsOrStr (resumeData.experience.head?.map (fun e => e.title)) "professional" ++
    " with expertise in " ++
    String.intercalate ", " (resumeData.skills.take 3) ++
    ". They have " ++ toString resumeData.experience.length ++
    "+ years of experience and hold a " ++
    (match resumeData.education.head? with
     | some e => e.degree
     | none => "undefined") ++
    ". Strong technical background with proven experience in software development and modern technologies. Excellent candidate for technical roles requiring " ++
    String.intercalate " and " (resumeData.skills.take 2) ++ " expertise."

/-- Outcome of the one `axios.post` of `generateCandidateBrief`: a thrown
exception, or a response whose optional-chained message content is either a
string or absent (`undefined`). -/
inductive BriefOutcome where
  | requestError
  | success (content : Option String)
deriving DecidableEq, Repr

/-- Embedding of `NLPService.generateCandidateBrief`.  The result is
`Option String` because the success branch returns
`content?.trim()`, which is `undefined` (here `none`) when the response
carried no message content. -/
def generateCandidateBrief (outcome : BriefOutcome)
    (resumeData : CandidateRecord) : Option String :=
  match outcome with
  | .requestError => some (fallbackBrief resumeData)
  | .success content => content.map (fun c => trimStr c)

/-! ### Helper lemmas shared by the claim theorems. -/

/-- Characterization of the embedded JavaScript `includes`. -/
theorem containsSub_iff (needle : List Char) :
    ∀ hay : List Char, containsSub hay needle = true ↔ needle <:+: hay := by
  intro hay
  induction hay with
  | nil =>
    simp only [containsSub, List.isEmpty_iff, List.infix_nil]
  | cons c t ih =>
    simp only [containsSub, Bool.or_eq_true, List.isPrefixOf_iff_prefix, ih,
      List.infix_cons_iff]

/-- Pushing matches one by one onto an accumulator is filtering. -/
theorem foldl_push_filter {α : Type} (p : α → Bool) :
    ∀ l acc : List α,
      l.foldl (fun a x => if p x then a ++ [x] else a) acc = acc ++ l.filter p := by
  intro l
  induction l with
  | nil => intro acc; simp
  | cons x t ih =>
    intro acc
    simp only [List.foldl_cons, List.filter_cons]
    cases h : p x <;> simp [h, ih]

/-- Skill matches as §4.1 of the specification describes them: taxonomy
entries whose lowercase form is contained in the lowercase text, kept in
taxonomy order. -/
def skillMatchesSpec (text : String) : List String :=
  technicalSkills.filter
    (fun skill => containsSub (lowerStr text).data (lowerStr skill).data)

/-- The skill extractor is the filtered taxonomy with the default triple
substituted for an empty match set. -/
theorem skills_eq_spec (text : String) :
    extractSkillsFromText text =
      if skillMatchesSpec text = [] then ["JavaScript", "React", "Node.js"]
      else skillMatchesSpec text := by
  simp only [extractSkillsFromText, skillMatchesSpec, foldl_push_filter,
    List.nil_append]
  by_cases h : technicalSkills.filter
      (fun skill => containsSub (lowerStr text).data (lowerStr skill).data) = []
  · simp [h]
  · simp [h, List.length_pos.mpr h, Nat.pos_iff_ne_zero.mp (List.length_pos.mpr h)]

/-- The skill extractor never returns an empty sequence. -/
theorem extractSkillsFromText_ne_nil (text : String) :
    extractSkillsFromText text ≠ [] := by
  rw [skills_eq_spec]
  by_cases h : skillMatchesSpec text = [] <;> simp [h]

/-- The experience extractor never returns an empty sequence. -/
theorem extractExperienceFromText_ne_nil (text : String) :
    extractExperienceFromText text ≠ [] := by
  simp only [extractExperienceFromText]
  by_cases h : (expLoop (splitLines text)).length = 0 <;> simp [h]
  exact fun hnil => h (by simp [hnil])

/-- The education extractor never returns an empty sequence. -/
theorem extractEducationFromText_ne_nil (text : String) :
    extractEducationFromText text ≠ [] := by
  simp only [extractEducationFromText]
  by_cases h : (eduLoop (splitLines text)).length = 0 <;> simp [h]
  exact fun hnil => h (by simp [hnil])

/-- The project extractor never returns an empty sequence. -/
theorem extractProjectsFromText_ne_nil (text : String) :
    extractProjectsFromText text ≠ [] := by
  simp only [extractProjectsFromText]
  by_cases h : (projLoop (splitLines text)).length = 0 <;> simp [h]
  exact fun hnil => h (by simp [hnil])

/-- Qualification of one line as §4.2 of the specification describes it:
the line (after trimming) contains the pipe delimiter together with one of
the year literals 2019–2023 or the literal `Present`, and splits on the pipe
into at least three trimmed segments, mapped to title, company and duration
with the fixed generic description. -/
def expLineSpec (ln : String) : Option ExperienceEntry :=
  let line := trimStr ln
  if containsStr line "|" &&
      (containsStr line "2019" || containsStr line "2020" ||
       containsStr line "2021" || containsStr line "2022" ||
       containsStr line "2023" || containsStr line "Present") then
    let parts := (splitOnChar '|' line.data).map (fun p => trimStr p.asString)
    if 3 ≤ parts.length then
      some { title := parts.getD 0 "", company := parts.getD 1 "",
             duration := parts.getD 2 "",
             description := "Developed and maintained software applications" }
    else none
  else none

/-- The experience loop keeps exactly the qualifying lines, in order. -/
theorem expLoop_eq_filterMap :
    ∀ ls : List String, expLoop ls = ls.filterMap expLineSpec := by
  intro ls
  induction ls with
  | nil => rfl
  | cons ln rest ih =>
    simp only [expLoop, expLineSpec, List.filterMap_cons]
    split
    · split
      · simp [ih]
      · simp [ih]
    · simp [ih]

/-! ### Soundness of the regex matcher: every reported match belongs to the
language of the pattern.  Used to bound the shape of extracted phone
numbers. -/

/-- Language of one regex atom. -/
inductive ReAccept : RE → List Char → Prop where
  | cls {p : Char → Bool} {c : Char} : p c = true → ReAccept (RE.cls p) [c]
  | optSome {p : Char → Bool} {c : Char} : p c = true → ReAccept (RE.opt p) [c]
  | optNone {p : Char → Bool} : ReAccept (RE.opt p) []
  | rep {p : Char → Bool} {n : Nat} {cs : List Char} :
      (∀ c ∈ cs, p c = true) → n ≤ cs.length → ReAccept (RE.rep p n) cs

/-- Language of a sequence of atoms. -/
inductive SeqAccept : List RE → List Char → Prop where
  | nil : SeqAccept [] []
  | cons {r : RE} {rs : List RE} {cs₁ cs₂ : List Char} :
      ReAccept r cs₁ → SeqAccept rs cs₂ → SeqAccept (r :: rs) (cs₁ ++ cs₂)

/-- The head run is no longer than the list. -/
theorem npRun_le (p : Char → Bool) : ∀ s : List Char, npRun p s ≤ s.length := by
  intro s
  induction s with
  | nil => simp [npRun]
  | cons c t ih =>
    simp only [npRun]
    split
    · simpa using ih
    · simp

/-- Every character inside the head run satisfies the class. -/
theorem npRun_take (p : Char → Bool) :
    ∀ (s : List Char) (k : Nat), k ≤ npRun p s → ∀ c ∈ s.take k, p c = true := by
  intro s
  induction s with
  | nil => intro k _ c hc; simp at hc
  | cons d t ih =>
    intro k hk c hc
    cases k with
    | zero => simp at hc
    | succ k' =>
      simp only [npRun] at hk
      split at hk
      · next hd =>
        simp only [List.take_succ_cons, List.mem_cons] at hc
        rcases hc with rfl | hc
        · exact hd
        · exact ih k' (Nat.le_of_succ_le_succ hk) c hc
      · omega

/-- Every candidate consumption of an atom takes an accepted slice. -/
theorem alts_sound {r : RE} {s : List Char} {k : Nat} (hk : k ∈ alts r s) :
    k ≤ s.length ∧ ReAccept r (s.take k) := by
  cases r with
  | cls p =>
    cases s with
    | nil => simp [alts] at hk
    | cons c t =>
      simp only [alts] at hk
      split at hk
      · next hc =>
        simp only [List.mem_singleton] at hk
        subst hk
        exact ⟨by simp, by simpa using ReAccept.cls hc⟩
      · simp at hk
  | opt p =>
    cases s with
    | nil =>
      simp only [alts, List.mem_singleton] at hk
      subst hk
      exact ⟨by simp, by simpa using ReAccept.optNone⟩
    | cons c t =>
      simp only [alts] at hk
      split at hk
      · next hc =>
        simp only [List.mem_cons, List.not_mem_nil, or_false] at hk
        rcases hk with rfl | rfl
        · exact ⟨by simp, by simpa using ReAccept.optSome hc⟩
        · exact ⟨by simp, by simpa using ReAccept.optNone⟩
      · simp only [List.mem_singleton] at hk
        subst hk
        exact ⟨by simp, by simpa using ReAccept.optNone⟩
  | rep p n =>
    simp only [alts] at hk
    split at hk
    · next hn =>
      simp only [List.mem_map, List.mem_range] at hk
      obtain ⟨j, hj, rfl⟩ := hk
      have hle : npRun p s - j ≤ npRun p s := Nat.sub_le _ _
      have hlen : npRun p s - j ≤ s.length := le_trans hle (npRun_le p s)
      refine ⟨hlen, ReAccept.rep (npRun_take p s _ hle) ?_⟩
      rw [List.length_take]
      omega
    · simp at hk

/-- Helper: a successful `findSome?` comes from some list element. -/
theorem findSome_mem {α β : Type} {f : α → Option β} {b : β} :
    ∀ {l : List α}, l.findSome? f = some b → ∃ a ∈ l, f a = some b := by
  intro l h
  obtain ⟨a, ha, hfa⟩ := List.exists_of_findSome?_eq_some h
  exact ⟨a, ha, hfa⟩

/-- Soundness of the backtracking matcher: a reported consumption length is
within bounds and the consumed prefix is in the pattern's language. -/
theorem matchSeq_sound :
    ∀ (rs : List RE) (s : List Char) (n : Nat), matchSeq rs s = some n →
      n ≤ s.length ∧ SeqAccept rs (s.take n) := by
  intro rs
  induction rs with
  | nil =>
    intro s n h
    simp only [matchSeq, Option.some_inj] at h
    subst h
    exact ⟨Nat.zero_le _, by simpa using SeqAccept.nil⟩
  | cons r rest ih =>
    intro s n h
    simp only [matchSeq] at h
    obtain ⟨k, hkmem, hk⟩ := findSome_mem h
    obtain ⟨m, hm, rfl⟩ := Option.map_eq_some'.mp hk
    obtain ⟨hkle, hracc⟩ := alts_sound hkmem
    obtain ⟨hmle, hsacc⟩ := ih (s.drop k) m hm
    rw [List.length_drop] at hmle
    refine ⟨by omega, ?_⟩
    rw [List.take_add]
    exact SeqAccept.cons hracc hsacc

/-- Soundness of the left-to-right scan: a reported match is in the
pattern's language. -/
theorem jsSearch_sound {rs : List RE} :
    ∀ {s cs : List Char}, jsSearch rs s = some cs → SeqAccept rs cs := by
  intro s
  induction s with
  | nil =>
    intro cs h
    simp only [jsSearch] at h
    split at h
    · next n hn =>
      simp only [Option.some_inj] at h
      subst h
      simpa using (matchSeq_sound rs [] n hn).2
    · exact absurd h (by simp)
  | cons c t ih =>
    intro cs h
    simp only [jsSearch] at h
    split at h
    · next n hn =>
      simp only [Option.some_inj] at h
      subst h
      exact (matchSeq_sound rs (c :: t) n hn).2
    · exact ih h

/-- A phone match contains at least ten characters of the numeric /
punctuation class (digits, whitespace, hyphens, parentheses). -/
theorem phone_accept_count {cs : List Char} (h : SeqAccept phoneRE cs) :
    10 ≤ cs.countP phoneTail := by
  simp only [phoneRE] at h
  cases h with
  | cons h1 h2 =>
  cases h2 with
  | cons h3 h4 =>
  cases h4 with
  | cons h5 h6 =>
  cases h6 with
  | cons h7 h8 =>
  cases h8 with
  | nil =>
  cases h7 with
  | rep hall hlen =>
    have hcount := List.countP_eq_length.mpr hall
    simp only [List.countP_append, List.append_nil]
    omega

/-- Containment of a one-character needle is membership. -/
theorem singleton_sub_mem {c : Char} {hay : List Char} :
    containsSub hay [c] = true ↔ c ∈ hay := by
  rw [containsSub_iff]
  constructor
  · intro h
    exact h.mem (List.mem_singleton_self c)
  · intro h
    obtain ⟨s, t, rfl⟩ := List.append_of_mem h
    exact ⟨s, t, by simp⟩

/-- A taxonomy entry whose lowercase form is contained in the lowercase text
is in the extractor's output. -/
theorem mem_skills_of_match {text sk : String}
    (hmem : sk ∈ technicalSkills)
    (hsub : containsSub (lowerStr text).data (lowerStr sk).data = true) :
    sk ∈ extractSkillsFromText text := by
  rw [skills_eq_spec]
  have h : sk ∈ skillMatchesSpec text := List.mem_filter.mpr ⟨hmem, hsub⟩
  have hne : skillMatchesSpec text ≠ [] := List.ne_nil_of_mem h
  simp only [hne, if_false]
  exact h

/-- Lowercasing maps a character of the text into the lowered text. -/
theorem mem_lower_of_mem {c : Char} {text : String} (h : c ∈ text.data) :
    c.toLower ∈ (lowerStr text).data := by
  simp only [lowerStr, List.asString, List.mem_map]
  exact ⟨c, h, rfl⟩

/-! ### Claim theorems. -/

/-- C5: applying the fallback extraction pipeline to the empty string yields
exactly the documented sentinels: name `Unknown`, email `unknown@email.com`,
phone `Not provided`, empty linkedin, the default skill triple, one fixed
placeholder experience entry, one fixed placeholder education entry, one
fixed placeholder project entry, and no certifications. -/
theorem fallbackExtract_empty_sentinels :
    extractFallbackData "" =
      { name := "Unknown", email := "unknown@email.com", phone := "Not provided",
        linkedin := "",
        skills := ["JavaScript", "React", "Node.js"],
        experience := [{ title := "Software Engineer", company := "Tech Company",
                         duration := "2021 - Present",
                         description := "Developed web applications using modern technologies" }],
        education := [{ degree := "Bachelor of Science", school := "University",
                        year := "2020", cgpa := "3.5", stream := "Computer Science" }],
        certifications := [],
        projects := [{ name := "Web Application",
                       description := "Built a full-stack web application",
                       technologies := ["React", "Node.js", "MongoDB"] }] } := by
  decide

/-- C6: for every input text the skill matcher returns exactly the taxonomy
entries whose literal form appears as a case-insensitive substring, in
taxonomy order (the match set is a sublist of the taxonomy), with the fixed
default triple substituted when the match set is empty; on the
specification's own example the taxonomy order (Python before React) is
reproduced. -/
theorem extractSkillsFromText_taxonomy_filter :
    (∀ text : String,
      (extractSkillsFromText text =
        if skillMatchesSpec text = [] then ["JavaScript", "React", "Node.js"]
        else skillMatchesSpec text) ∧
      List.Sublist (skillMatchesSpec text) technicalSkills ∧
      (∀ sk : String, sk ∈ skillMatchesSpec text ↔
        sk ∈ technicalSkills ∧
          containsSub (lowerStr text).data (lowerStr sk).data = true)) ∧
    extractSkillsFromText "I know react and PYTHON" = ["Python", "C", "R", "React"] := by
  refine ⟨fun text => ⟨skills_eq_spec text, List.filter_sublist _, fun sk => List.mem_filter⟩, ?_⟩
  decide

/-- C7: the experience extractor produces one entry per line that, after
trimming, contains the pipe delimiter together with one of the literals
2019–2023 or `Present` and splits into at least three trimmed segments
(segment 0 title, 1 company, 2 duration, fixed description); other lines are
ignored, and when no line qualifies exactly the fixed placeholder entry is
returned.  The specification's example line parses as stated and a
two-segment line is ignored. -/
theorem extractExperienceFromText_line_heuristic :
    (∀ text : String,
      extractExperienceFromText text =
        if (splitLines text).filterMap expLineSpec = []
        then [placeholderExperience]
        else (splitLines text).filterMap expLineSpec) ∧
    expLineSpec "Senior Engineer | Acme Corp | 2022 - Present" =
      some { title := "Senior Engineer", company := "Acme Corp",
             duration := "2022 - Present",
             description := "Developed and maintained software applications" } ∧
    expLineSpec "Acme | 2022" = none := by
  refine ⟨?_, by decide, by decide⟩
  intro text
  simp only [extractExperienceFromText, expLoop_eq_filterMap]
  by_cases h : (splitLines text).filterMap expLineSpec = [] <;>
    simp [h, List.length_eq_zero]

/-- C8 (amended): the fallback phone field is either the sentinel
`Not provided` (exactly when the phone pattern has no match) or the first
matched substring, and any matched substring contains at least ten
characters of the numeric punctuation class `[\d\s\-()]` — digits,
whitespace, hyphens or parentheses, not necessarily ten digit characters. -/
theorem fallbackPhone_sentinel_or_match (text : String) :
    ((extractFallbackData text).phone = "Not provided" ∧
      jsSearch phoneRE text.data = none) ∨
    (∃ cs : List Char, jsSearch phoneRE text.data = some cs ∧
      (extractFallbackData text).phone = cs.asString ∧
      10 ≤ cs.countP phoneTail) := by
  cases h : jsSearch phoneRE text.data with
  | none =>
    left
    exact ⟨by simp [extractFallbackData, h], rfl⟩
  | some cs =>
    right
    exact ⟨cs, rfl, by simp [extractFallbackData, h],
      phone_accept_count (jsSearch_sound h)⟩

/-- C8 (counterexample to the claim as stated): on a text of ten hyphens the
phone pattern matches, the extracted phone is the ten hyphens, and the
matched value contains zero digit characters, not at least ten. -/
theorem fallbackPhone_match_without_digits :
    (extractFallbackData "----------").phone = "----------" ∧
    List.countP digitChar "----------".data = 0 := by
  decide

/-- C9: the fallback extraction pipeline is deterministic — it is a pure
function of the input text alone, so identical inputs yield identical
records. -/
theorem extractFallbackData_deterministic (s t : String) (h : s = t) :
    extractFallbackData s = extractFallbackData t := by
  rw [h]

/-- C9 witness: the determinism theorem applied at a concrete input. -/
theorem extractFallbackData_deterministic_witness :
    extractFallbackData "Jane Doe" = extractFallbackData "Jane Doe" :=
  extractFallbackData_deterministic "Jane Doe" "Jane Doe" rfl

/-- Decoded object for model content carrying only a name field. -/
def pdNameX : ParsedData :=
  { name := some "X", email := none, phone := none, linkedin := none,
    skills := JsSeq.notArray, experience := JsSeq.notArray,
    education := JsSeq.notArray, certifications := JsSeq.notArray,
    projects := JsSeq.notArray }

/-- Model content wrapping the JSON object in prose and a code fence, as in
§8 of the specification. -/
def wrappedNameX : String :=
  "Here is the result:\n```json\n\x7b\"name\":\"X\"\x7d\n```\nThanks!"

/-- Platform JSON decoder (`JSON.parse`) restricted to the one sanitized
content this development feeds it: the object holding only a name field. -/
def decodeNameX : String → Option ParsedData :=
  fun s => if s = "\x7b\"name\":\"X\"\x7d" then some pdNameX else none

/-- C1 (counterexample to the claim as stated): a primary-path invocation
whose decoded object carries only a name returns empty skills and empty
experience sequences — required sequence fields of an extraction invocation
that are empty, not sentinel-populated. -/
theorem primary_invocation_empty_sequences :
    (extractResumeData decodeNameX (LLMOutcome.success wrappedNameX) "Jane Doe").skills = [] ∧
    (extractResumeData decodeNameX (LLMOutcome.success wrappedNameX) "Jane Doe").experience = [] := by
  decide

/-- Decoded object with every CandidateRecord field absent (the decode of
an empty JSON object). -/
def pdEmptyObj : ParsedData :=
  { name := none, email := none, phone := none, linkedin := none,
    skills := JsSeq.notArray, experience := JsSeq.notArray,
    education := JsSeq.notArray, certifications := JsSeq.notArray,
    projects := JsSeq.notArray }

/-- C1 (amended): on the fallback path every invocation returns non-empty
skills, experience, education and projects sequences; on the primary path
each of the four scalar fields absent from the decoded object is backfilled
with its sentinel, but each sequence field that is absent or not an array
becomes the empty sequence. -/
theorem record_population_by_path :
    (∀ text : String,
      (extractFallbackData text).skills ≠ [] ∧
      (extractFallbackData text).experience ≠ [] ∧
      (extractFallbackData text).education ≠ [] ∧
      (extractFallbackData text).projects ≠ []) ∧
    (∀ pd : ParsedData,
      (pd.name = none → (buildPrimaryRecord pd).name = "Unknown") ∧
      (pd.email = none → (buildPrimaryRecord pd).email = "unknown@email.com") ∧
      (pd.phone = none → (buildPrimaryRecord pd).phone = "Not provided") ∧
      (pd.linkedin = none → (buildPrimaryRecord pd).linkedin = "") ∧
      (pd.skills = JsSeq.notArray → (buildPrimaryRecord pd).skills = []) ∧
      (pd.experience = JsSeq.notArray → (buildPrimaryRecord pd).experience = []) ∧
      (pd.education = JsSeq.notArray → (buildPrimaryRecord pd).education = []) ∧
      (pd.certifications = JsSeq.notArray →
        (buildPrimaryRecord pd).certifications = []) ∧
      (pd.projects = JsSeq.notArray → (buildPrimaryRecord pd).projects = [])) := by
  refine ⟨fun text => ⟨?_, ?_, ?_, ?_⟩, fun pd => ?_⟩
  · exact extractSkillsFromText_ne_nil text
  · exact extractExperienceFromText_ne_nil text
  · exact extractEducationFromText_ne_nil text
  · exact extractProjectsFromText_ne_nil text
  · refine ⟨fun h => ?_, fun h => ?_, fun h => ?_, fun h => ?_, fun h => ?_,
      fun h => ?_, fun h => ?_, fun h => ?_, fun h => ?_⟩ <;>
      simp [buildPrimaryRecord, h, jsOrStr, jsArr]

/-- C1 witness: the amended theorem applied at concrete inputs — the empty
resume text for the fallback part, and the decode of an empty object
(every field absent) discharging all nine backfill hypotheses. -/
theorem record_population_by_path_witness :
    (extractFallbackData "").skills ≠ [] ∧
    (buildPrimaryRecord pdEmptyObj).name = "Unknown" ∧
    (buildPrimaryRecord pdEmptyObj).email = "unknown@email.com" ∧
    (buildPrimaryRecord pdEmptyObj).phone = "Not provided" ∧
    (buildPrimaryRecord pdEmptyObj).linkedin = "" ∧
    (buildPrimaryRecord pdEmptyObj).skills = [] ∧
    (buildPrimaryRecord pdEmptyObj).experience = [] ∧
    (buildPrimaryRecord pdEmptyObj).education = [] ∧
    (buildPrimaryRecord pdEmptyObj).certifications = [] ∧
    (buildPrimaryRecord pdEmptyObj).projects = [] :=
  ⟨(record_population_by_path.1 "").1,
   (record_population_by_path.2 pdEmptyObj).1 rfl,
   (record_population_by_path.2 pdEmptyObj).2.1 rfl,
   (record_population_by_path.2 pdEmptyObj).2.2.1 rfl,
   (record_population_by_path.2 pdEmptyObj).2.2.2.1 rfl,
   (record_population_by_path.2 pdEmptyObj).2.2.2.2.1 rfl,
   (record_population_by_path.2 pdEmptyObj).2.2.2.2.2.1 rfl,
   (record_population_by_path.2 pdEmptyObj).2.2.2.2.2.2.1 rfl,
   (record_population_by_path.2 pdEmptyObj).2.2.2.2.2.2.2.1 rfl,
   (record_population_by_path.2 pdEmptyObj).2.2.2.2.2.2.2.2 rfl⟩

/-- C2 (counterexample to the claim as stated): for decoded content holding
only a name, the missing skills field is backfilled with the empty sequence,
which differs from the fallback path's default skill triple. -/
theorem primary_backfill_differs_from_fallback :
    (extractResumeData decodeNameX (LLMOutcome.success wrappedNameX) "").skills = [] ∧
    (extractFallbackData "").skills = ["JavaScript", "React", "Node.js"] ∧
    (extractResumeData decodeNameX (LLMOutcome.success wrappedNameX) "").skills ≠
      (extractFallbackData "").skills := by
  decide

/-- C2 (amended): the sanitizer slices the model content from the first
opening brace to the last closing brace inclusive, recovering exactly the
embedded object from prose and code fences; scalar fields absent from the
decoded object are backfilled with the same sentinels the fallback path
uses, while absent sequence fields are coerced to empty sequences. -/
theorem sanitizer_slice_and_scalar_backfill :
    cleanJsonResponse wrappedNameX = "\x7b\"name\":\"X\"\x7d" ∧
    extractResumeData decodeNameX (LLMOutcome.success wrappedNameX) "" =
      { name := "X", email := "unknown@email.com", phone := "Not provided",
        linkedin := "", skills := [], experience := [], education := [],
        certifications := [], projects := [] } ∧
    (extractFallbackData "").email = "unknown@email.com" ∧
    (extractFallbackData "").phone = "Not provided" ∧
    (extractFallbackData "").linkedin = "" := by
  decide

/-- C3: whenever the LLM request fails before a content string is decoded
(transport error, non-success status, body decode failure, missing content)
or the sanitized content fails to decode, the primary extractor returns
exactly the fallback extraction of the same input text — never an error and
never a partial merge. -/
theorem llm_failure_delegates_to_fallback :
    (∀ (decode : String → Option ParsedData) (text : String),
      extractResumeData decode LLMOutcome.requestError text = extractFallbackData text) ∧
    (∀ (decode : String → Option ParsedData) (text content : String),
      decode (cleanJsonResponse content) = none →
      extractResumeData decode (LLMOutcome.success content) text = extractFallbackData text) := by
  constructor
  · intro decode text
    rfl
  · intro decode text content h
    simp [extractResumeData, h]

/-- C3 witness: the delegation theorem applied at concrete inputs, with an
always-failing decoder. -/
theorem llm_failure_delegates_to_fallback_witness :
    extractResumeData (fun _ => none) LLMOutcome.requestError "Jane Doe" =
      extractFallbackData "Jane Doe" ∧
    extractResumeData (fun _ => none) (LLMOutcome.success "no json here") "Jane Doe" =
      extractFallbackData "Jane Doe" :=
  ⟨llm_failure_delegates_to_fallback.1 _ "Jane Doe",
   llm_failure_delegates_to_fallback.2 _ "Jane Doe" "no json here" rfl⟩

/-- C4 (counterexample to the claim as stated): on a successful response
whose optional-chained message content is absent, the brief generator
returns no value at all — neither the templated sentence nor any non-empty
prose. -/
theorem brief_missing_content_no_prose :
    generateCandidateBrief (BriefOutcome.success none) (extractFallbackData "") = none ∧
    (none : Option String) ≠ some (fallbackBrief (extractFallbackData "")) :=
  ⟨rfl, by simp⟩

/-- C4 (amended): the brief generator returns the trimmed model content on
success with content present, the deterministic templated sentence built
from the record's own fields on a thrown request failure, and the missing
value (`undefined`) on a successful response with absent content. -/
theorem generateCandidateBrief_branches :
    (∀ rd : CandidateRecord,
      generateCandidateBrief BriefOutcome.requestError rd = some (fallbackBrief rd)) ∧
    (∀ (rd : CandidateRecord) (c : String),
      generateCandidateBrief (BriefOutcome.success (some c)) rd = some (trimStr c)) ∧
    (∀ rd : CandidateRecord,
      generateCandidateBrief (BriefOutcome.success none) rd = none) :=
  ⟨fun _ => rfl, fun _ _ => rfl, fun _ => rfl⟩

/-- C10: because skill matching is plain case-insensitive substring
containment, any text containing `JavaScript` also reports `Java`, any text
containing the letter c (either case) reports the taxonomy entry `C`, any
text containing the letter r reports `R`, and the zero-skill default triple
is only ever returned for text containing none of those letters. -/
theorem skill_substring_artifacts (text : String) :
    (containsStr text "JavaScript" = true → "Java" ∈ extractSkillsFromText text) ∧
    (('c' ∈ text.data ∨ 'C' ∈ text.data) → "C" ∈ extractSkillsFromText text) ∧
    (('r' ∈ text.data ∨ 'R' ∈ text.data) → "R" ∈ extractSkillsFromText text) ∧
    (extractSkillsFromText text = ["JavaScript", "React", "Node.js"] →
      'c' ∉ text.data ∧ 'C' ∉ text.data ∧ 'r' ∉ text.data ∧ 'R' ∉ text.data) := by
  refine ⟨?_, ?_, ?_, ?_⟩
  · intro h
    refine mem_skills_of_match (by decide) ?_
    rw [containsSub_iff]
    have hinf : "JavaScript".data <:+: text.data := (containsSub_iff _ _).mp h
    have hm := hinf.map Char.toLower
    rw [show List.map Char.toLower "JavaScript".data = "javascript".data from by decide] at hm
    have hj : (lowerStr "Java").data <:+: "javascript".data :=
      ⟨[], "script".data, by decide⟩
    exact hj.trans hm
  · intro h
    refine mem_skills_of_match (by decide) ?_
    have hc : 'c' ∈ (lowerStr text).data := by
      rcases h with h | h
      · have hx := mem_lower_of_mem h
        rwa [show ('c').toLower = 'c' from by decide] at hx
      · have hx := mem_lower_of_mem h
        rwa [show ('C').toLower = 'c' from by decide] at hx
    rw [show (lowerStr "C").data = ['c'] from by decide]
    exact singleton_sub_mem.mpr hc
  · intro h
    refine mem_skills_of_match (by decide) ?_
    have hr : 'r' ∈ (lowerStr text).data := by
      rcases h with h | h
      · have hx := mem_lower_of_mem h
        rwa [show ('r').toLower = 'r' from by decide] at hx
      · have hx := mem_lower_of_mem h
        rwa [show ('R').toLower = 'r' from by decide] at hx
    rw [show (lowerStr "R").data = ['r'] from by decide]
    exact singleton_sub_mem.mpr hr
  · intro heq
    by_cases hm : skillMatchesSpec text = []
    · have hC := List.filter_eq_nil_iff.mp hm "C" (by decide)
      have hR := List.filter_eq_nil_iff.mp hm "R" (by decide)
      simp only at hC hR
      rw [show (lowerStr "C").data = ['c'] from by decide] at hC
      rw [show (lowerStr "R").data = ['r'] from by decide] at hR
      have hcl : 'c' ∉ (lowerStr text).data := fun hx => hC (singleton_sub_mem.mpr hx)
      have hrl : 'r' ∉ (lowerStr text).data := fun hx => hR (singleton_sub_mem.mpr hx)
      refine ⟨fun hx => hcl ?_, fun hx => hcl ?_, fun hx => hrl ?_, fun hx => hrl ?_⟩
      · have hy := mem_lower_of_mem hx
        rwa [show ('c').toLower = 'c' from by decide] at hy
      · have hy := mem_lower_of_mem hx
        rwa [show ('C').toLower = 'c' from by decide] at hy
      · have hy := mem_lower_of_mem hx
        rwa [show ('r').toLower = 'r' from by decide] at hy
      · have hy := mem_lower_of_mem hx
        rwa [show ('R').toLower = 'r' from by decide] at hy
    · exfalso
      have htr : skillMatchesSpec text = ["JavaScript", "React", "Node.js"] := by
        have h2 := skills_eq_spec text
        rw [heq] at h2
        simpa [hm] using h2.symm
      have hJ : "JavaScript" ∈ skillMatchesSpec text := by
        rw [htr]
        exact List.mem_cons_self _ _
      have hJs := (List.mem_filter.mp hJ).2
      have hcl : 'c' ∈ (lowerStr text).data := by
        have hinf := (containsSub_iff _ _).mp hJs
        exact hinf.mem (by decide)
      have hCmem : "C" ∈ skillMatchesSpec text := by
        refine List.mem_filter.mpr ⟨by decide, ?_⟩
        show containsSub (lowerStr text).data (lowerStr "C").data = true
        rw [show (lowerStr "C").data = ['c'] from by decide]
        exact singleton_sub_mem.mpr hcl
      rw [htr] at hCmem
      exact absurd hCmem (by decide)

/-- C10 witness: the substring-artifact theorem applied at concrete texts. -/
theorem skill_substring_artifacts_witness :
    "Java" ∈ extractSkillsFromText "JavaScript rocks" ∧
    "C" ∈ extractSkillsFromText "candy" ∧
    "R" ∈ extractSkillsFromText "burger" ∧
    ('c' ∉ "!!!".data ∧ 'C' ∉ "!!!".data ∧ 'r' ∉ "!!!".data ∧ 'R' ∉ "!!!".data) :=
  ⟨(skill_substring_artifacts "JavaScript rocks").1 (by decide),
   (skill_substring_artifacts "candy").2.1 (Or.inl (by decide)),
   (skill_substring_artifacts "burger").2.2.1 (Or.inl (by decide)),
   (skill_substring_artifacts "!!!").2.2.2 (by decide)⟩

end NlpService
